import Mathlib

set_option maxRecDepth 100000

/-!
Verification development for the CodePitamah analysis backend.

The definitions below are shallow embeddings of the Python sources:
- `backend/app/services/redis_rate_limiter.py` (sliding-window rate limiter,
  JWT user manager, suspicious-activity scoring),
- `backend/app/services/code_analyzer.py` (metrics extractor, security
  string scanner, analysis pipeline),
- `backend/app/api/codepitamah.py` / `codepitamah_enhanced.py` (input
  validation, sanitization, identity resolution).

Modelling conventions:
- Redis sorted-set state for one rate-limit key is a `List ℤ` of scores
  (timestamps; only their ordering and differences against the window reach
  the code, so clock readings are carried as integers); a member with an
  existing score is not duplicated, matching ZADD semantics.  An unavailable
  store is `Option.none`: every operation on it raises, which the code
  catches (`except redis.RedisError`).
- Python floats in the suspicion score are modelled bit-exactly: every value
  arising there is an IEEE-754 double that is an integer multiple of 2⁻⁵⁶,
  so doubles are carried as natural-number numerators at scale 2⁻⁵⁶ and
  addition rounds the exact sum to 53 significant bits, ties to even
  (`roundMant`).  Metric floats (maintainability, comment ratio) are carried
  as exact rationals, with `round1` for Python's `round(x, 1)`.
- Strings are `List Char`; `pyLower`, `pyStrip`, `pyLines` model
  `str.lower`, `str.strip`, `str.split('\n')` for the ASCII inputs the
  claims concern.
- External boundaries (the `ast.parse` parser, the bandit subprocess, JWT
  signature verification, detector executions whose bodies are not under
  any claim) enter as explicit outcome values, so that the exception-flow
  structure of the orchestrator is modelled faithfully.
-/

/-! ## Rate limiter: `RedisRateLimiter.check_rate_limit` -/

/-- Result dictionary returned by `check_rate_limit`.  `error` models the
presence of the `"error"` key (only the Redis-unavailable fallback sets it). -/
structure RLResult where
  allowed : Bool
  current_count : ℕ
  limit : ℕ
  remaining : ℕ
  reset_time : Option ℤ
  window_seconds : ℕ
  plan : String
  error : Option String
  deriving Repr, DecidableEq

/-- `self.default_limits` lookup with the `.get(user_plan, anonymous)`
fallback: (requests, window) per plan. -/
def defaultLimits (plan : String) : ℕ × ℕ :=
  if plan = "anonymous" then (10, 60)
  else if plan = "free" then (50, 60)
  else if plan = "pro" then (200, 60)
  else if plan = "enterprise" then (1000, 60)
  else (10, 60)

/-- Minimum of a list of rationals, `none` on the empty list
(models `ZRANGE key 0 0 WITHSCORES`, the lowest-score member). -/
def listMin : List ℤ → Option ℤ
  | [] => none
  | x :: xs =>
    match listMin xs with
    | none => some x
    | some m => some (min x m)

/-- Core of `check_rate_limit` when Redis is reachable, on the sorted-set
scores `l` at current time `t` with limits `(rq, w)`:
`ZREMRANGEBYSCORE key 0 (t - w)`, `ZCARD`, `ZADD key {t: t}` (no duplicate
member for an existing score), then the result dictionary.  `remaining`
is `max(0, rq - count)` via truncated subtraction. -/
def checkCore (rq w : ℕ) (plan : String) (l : List ℤ) (t : ℤ) :
    RLResult × List ℤ :=
  let l1 := l.filter fun x => decide (¬ (0 ≤ x ∧ x ≤ t - (w : ℤ)))
  let cnt := l1.length
  let l2 := if t ∈ l1 then l1 else l1 ++ [t]
  let res : RLResult :=
    { allowed := decide (cnt < rq)
      current_count := cnt
      limit := rq
      remaining := rq - cnt
      reset_time := (listMin l2).map (fun m => m + (w : ℤ))
      window_seconds := w
      plan := plan
      error := none }
  (res, l2)

/-- `check_rate_limit`: on a reachable store runs the pipelined
evict/count/insert; on an unavailable store (`none`) the
`except redis.RedisError` branch returns the fail-open fallback result. -/
def checkRateLimit (plan : String) (s : Option (List ℤ)) (t : ℤ) :
    RLResult × Option (List ℤ) :=
  let rq := (defaultLimits plan).1
  let w := (defaultLimits plan).2
  match s with
  | some l =>
    let r := checkCore rq w plan l t
    (r.1, some r.2)
  | none =>
    ({ allowed := true
       current_count := 0
       limit := rq
       remaining := rq
       reset_time := none
       window_seconds := w
       plan := plan
       error := some "Redis unavailable, allowing request" }, none)

/-- State transition of one check (the new sorted-set contents). -/
def rlStep (w : ℕ) (l : List ℤ) (t : ℤ) : List ℤ :=
  (checkCore 0 w "" l t).2

/-- Sorted-set contents after a sequence of checks at the given times. -/
def stateAfter (w : ℕ) (l : List ℤ) (ts : List ℤ) : List ℤ :=
  ts.foldl (rlStep w) l

/-- Results of a sequence of checks at the given times, threading the
sorted-set state. -/
def runChecks (rq w : ℕ) (plan : String) (l : List ℤ) : List ℤ → List RLResult
  | [] => []
  | t :: ts =>
    (checkCore rq w plan l t).1 :: runChecks rq w plan (checkCore rq w plan l t).2 ts

/-! ## Python string primitives -/

/-- Python whitespace characters stripped by `str.strip` (ASCII range). -/
def isPySpace (c : Char) : Bool :=
  c = ' ' ∨ c = '\t' ∨ c = '\n' ∨ c = '\r' ∨ c = Char.ofNat 11 ∨ c = Char.ofNat 12

/-- `str.lower` (ASCII case folding, which covers every keyword and pattern
the analyzed checks use). -/
def pyLower (l : List Char) : List Char :=
  l.map Char.toLower

/-- Drop Python whitespace from the right end. -/
def dropRightSpace (l : List Char) : List Char :=
  (l.reverse.dropWhile isPySpace).reverse

/-- `str.strip`. -/
def pyStrip (l : List Char) : List Char :=
  dropRightSpace (l.dropWhile isPySpace)

/-- `code.split('\n')`: always nonempty, pieces contain no newline. -/
def pyLines : List Char → List (List Char)
  | [] => [[]]
  | c :: s =>
    match pyLines s with
    | [] => [[c]]
    | h :: t => if c = '\n' then [] :: h :: t else (c :: h) :: t

/-- `'\n'.join(lines)`. -/
def pyUnlines : List (List Char) → List Char
  | [] => []
  | [l] => l
  | l :: ls => l ++ '\n' :: pyUnlines ls

/-- Does `l` start with `n`? -/
def startsWith : List Char → List Char → Bool
  | [], _ => true
  | _ :: _, [] => false
  | a :: n, b :: l => a = b ∧ startsWith n l

/-- Python's substring test `n in l`. -/
def hasSub (n : List Char) : List Char → Bool
  | [] => startsWith n []
  | c :: l => startsWith n (c :: l) || hasSub n l

/-- `any(p in s for p in pats)`. -/
def anySub (pats : List String) (s : List Char) : Bool :=
  pats.any fun p => hasSub p.toList s

/-! ## Security string scanner: `CodeAnalyzer._analyze_security_vulnerabilities` -/

/-- One reported issue (`CodeIssue` dataclass). -/
structure CodeIssue where
  type : String
  message : String
  line : ℕ
  severity : String
  rule_id : Option String := none
  deriving Repr, DecidableEq

/-- The sixteen per-line security checks, in source order, as
(condition, issue-to-append) pairs.  `line` is the raw line, `low` below is
`line.lower().strip()`; conditions on quotes and on `'%s'`, `'+'`, `'{'`,
`'f"'` inspect the raw line, exactly as in the source. -/
def secChecks (i : ℕ) (line : List Char) : List (Bool × CodeIssue) :=
  let low := pyStrip (pyLower line)
  [ (anySub ["execute(", "query(", "cursor.execute", "db.execute", "raw(", "extra("] low &&
      (hasSub ['%', 's'] line || hasSub ['+'] line || hasSub "format(".toList line ||
        hasSub ['f', '"'] line || hasSub [Char.ofNat 123] line),
     ⟨"vulnerability",
      "SQL injection vulnerability - use parameterized queries instead of string interpolation",
      i, "high", some "SEC_SQL_INJECTION"⟩),
    (anySub ["objects.filter(", "objects.get(", "objects.raw("] low &&
      (hasSub ['%', 's'] line || hasSub ['+'] line || hasSub "format(".toList line ||
        hasSub ['f', '"'] line),
     ⟨"vulnerability", "ORM SQL injection - use parameterized queries with Q objects",
      i, "high", some "SEC_ORM_SQL_INJECTION"⟩),
    (anySub ["innerhtml", "outerhtml", "document.write", "eval("] low &&
      (hasSub ['+'] line || hasSub "format(".toList line || hasSub ['f', '"'] line),
     ⟨"vulnerability", "Potential XSS vulnerability - sanitize user input before DOM manipulation",
      i, "high", some "SEC_XSS"⟩),
    (anySub ["password=", "secret=", "key=", "token=", "api_key="] low &&
      (hasSub ['"'] line || hasSub ['\''] line),
     ⟨"vulnerability", "Hardcoded secret detected - use environment variables or secure storage",
      i, "high", some "SEC_HARDCODED_SECRET"⟩),
    (anySub ["pickle.loads", "marshal.loads", "yaml.load(", "eval("] low,
     ⟨"vulnerability", "Insecure deserialization - use safe deserialization methods",
      i, "high", some "SEC_INSECURE_DESERIALIZATION"⟩),
    (anySub ["md5(", "sha1(", "des(", "rc4("] low,
     ⟨"vulnerability", "Weak cryptographic algorithm - use stronger alternatives (SHA-256, AES)",
      i, "medium", some "SEC_WEAK_CRYPTO"⟩),
    (!hasSub "csrf".toList low &&
      anySub ["@app.route", "def post(", "def put(", "def delete("] low,
     ⟨"vulnerability",
      "Missing CSRF protection - implement CSRF tokens for state-changing operations",
      i, "medium", some "SEC_MISSING_CSRF"⟩),
    (anySub ["if user_id == 1:", "if admin == true:", "if role == \"admin\""] low &&
      !hasSub "authenticate".toList low,
     ⟨"vulnerability", "Potential authentication bypass - implement proper authentication checks",
      i, "high", some "SEC_AUTH_BYPASS"⟩),
    (anySub ["open(", "file(", "read("] low &&
      (hasSub "../".toList line || hasSub ['.', '.', '\\'] line),
     ⟨"vulnerability", "Potential path traversal - validate and sanitize file paths",
      i, "high", some "SEC_PATH_TRAVERSAL"⟩),
    (anySub ["os.system", "subprocess.call", "subprocess.run", "exec(", "popen("] low &&
      (hasSub ['+'] line || hasSub "format(".toList line || hasSub ['f', '"'] line),
     ⟨"vulnerability", "Command injection vulnerability - validate and sanitize command inputs",
      i, "high", some "SEC_COMMAND_INJECTION"⟩),
    (hasSub "subprocess.run(".toList low && hasSub "shell=true".toList low,
     ⟨"vulnerability",
      "Critical command injection - shell=True with user input is extremely dangerous",
      i, "critical", some "SEC_SHELL_INJECTION"⟩),
    (anySub ["password", "credit_card", "ssn", "social_security", "api_key", "secret"] low &&
      anySub ["return", "jsonify", "response", "render"] low,
     ⟨"vulnerability", "Sensitive data exposure - remove sensitive fields from API responses",
      i, "high", some "SEC_SENSITIVE_DATA_EXPOSURE"⟩),
    (anySub ["password=", "secret=", "key=", "token=", "api_key=", "database_password="] low &&
      (hasSub ['"'] line || hasSub ['\''] line),
     ⟨"vulnerability", "Hardcoded credentials detected - use environment variables or secure storage",
      i, "high", some "SEC_HARDCODED_CREDENTIALS"⟩),
    (anySub ["'password'", "\"password\"", "'secret'", "\"secret\"", "'api_key'", "\"api_key\""]
        low && hasSub [':'] line && (hasSub ['"'] line || hasSub ['\''] line),
     ⟨"vulnerability", "Hardcoded credentials in configuration - use environment variables",
      i, "high", some "SEC_HARDCODED_CREDENTIALS"⟩),
    (anySub ["open(", "file(", "read(", "write(", "save(", "upload("] low &&
      (hasSub "../".toList line || hasSub ['.', '.', '\\'] line || hasSub "filename".toList low),
     ⟨"vulnerability", "Path traversal vulnerability - validate and sanitize file paths",
      i, "high", some "SEC_PATH_TRAVERSAL"⟩),
    (anySub ["request.get", "request.post", "request.args", "request.form"] low &&
      !hasSub "validate".toList low && !hasSub "sanitize".toList low,
     ⟨"vulnerability", "Missing input validation - validate and sanitize user inputs",
      i, "medium", some "SEC_MISSING_INPUT_VALIDATION"⟩) ]

/-- Keep the issues whose condition fired, in order (the sequence of
`security_issues.append` calls for one line). -/
def collectIssues : List (Bool × CodeIssue) → List CodeIssue
  | [] => []
  | (b, iss) :: rest => if b then iss :: collectIssues rest else collectIssues rest

/-- Issues the scanner emits for line number `i` with content `line`. -/
def secLineIssues (i : ℕ) (line : List Char) : List CodeIssue :=
  collectIssues (secChecks i line)

/-- `_analyze_security_vulnerabilities` on an explicit list of lines
(1-based line numbers, as `enumerate(lines, 1)`). -/
def secVulnsLines (ls : List (List Char)) : List CodeIssue :=
  ((List.range ls.length).zip ls).flatMap fun p => secLineIssues (p.1 + 1) p.2

/-- `_analyze_security_vulnerabilities(code)`. -/
def secVulns (code : List Char) : List CodeIssue :=
  secVulnsLines (pyLines code)

/-! ## Sanitizer: `sanitize_code_for_analysis` -/

/-- The replacement line for a line that looks like it contains secrets. -/
def redactLine : List Char :=
  "# [REDACTED - Contains sensitive information]".toList

/-- The sanitizer's keyword list. -/
def sanitizeKeywords : List String :=
  ["password", "secret", "key", "token", "credential"]

/-- Per-line sanitization choice. -/
def sanitizeLine (line : List Char) : List Char :=
  if sanitizeKeywords.any (fun kw => hasSub kw.toList (pyLower line)) then redactLine
  else line

/-- `sanitize_code_for_analysis(code)`: split on newlines, redact suspicious
lines, rejoin. -/
def pySanitize (code : List Char) : List Char :=
  pyUnlines ((pyLines code).map sanitizeLine)

/-! ## Denylist regular expressions and `CodeAnalysisRequest.validate_code`

The 25 `DANGEROUS_PATTERNS` use only literals, `\s+`, `\s*`, `.*` and `$`,
compiled with `re.IGNORECASE | re.MULTILINE`.  `RTok` spells one pattern as
a token list and `matchToks` is a backtracking matcher: `matchToks p s`
holds exactly when `p` matches some prefix of `s`, so `searchToks` (any
start position) models `pattern.search`. -/

/-- One regex token of a denylist pattern. -/
inductive RTok where
  | lit (c : Char)
  | ws0
  | ws1
  | anyStar
  | eol
  deriving Repr, DecidableEq

/-- Case-insensitive literal comparison (`re.IGNORECASE`). -/
def charIEq (a b : Char) : Bool :=
  a.toLower = b.toLower

/-- Backtracking matcher with structural fuel (every recursive call
strictly shrinks pattern-length + string-length, so
`p.length + s.length + 1` fuel is always enough): does the token list
match a prefix of `s`?  `$` under `re.MULTILINE` matches at the end of the
string or before a newline; `.` does not match a newline. -/
def matchToksF : ℕ → List RTok → List Char → Bool
  | 0, _, _ => false
  | _ + 1, [], _ => true
  | _ + 1, .lit _ :: _, [] => false
  | k + 1, .lit c :: p, x :: s => charIEq x c && matchToksF k p s
  | _ + 1, .ws1 :: _, [] => false
  | k + 1, .ws1 :: p, x :: s => isPySpace x && matchToksF k (.ws0 :: p) s
  | k + 1, .ws0 :: p, [] => matchToksF k p []
  | k + 1, .ws0 :: p, x :: s =>
    matchToksF k p (x :: s) || (isPySpace x && matchToksF k (.ws0 :: p) s)
  | k + 1, .anyStar :: p, [] => matchToksF k p []
  | k + 1, .anyStar :: p, x :: s =>
    matchToksF k p (x :: s) || (!(x = '\n') && matchToksF k (.anyStar :: p) s)
  | k + 1, .eol :: p, [] => matchToksF k p []
  | k + 1, .eol :: p, x :: s => x = '\n' && matchToksF k p (x :: s)

/-- The matcher at its sufficient fuel. -/
def matchToks (p : List RTok) (s : List Char) : Bool :=
  matchToksF (p.length + s.length + 1) p s

/-- `pattern.search(v)`: a match starting at some position of `v`. -/
def searchToks (p : List RTok) (s : List Char) : Bool :=
  s.tails.any (matchToks p)

/-- Literal characters of a pattern piece. -/
def lits (s : String) : List RTok :=
  s.toList.map RTok.lit

/-- The 25 `DANGEROUS_PATTERNS`, in source order. -/
def dangerousPatterns : List (List RTok) :=
  [ lits "import" ++ [.ws1] ++ lits "os" ++ [.ws0, .eol],
    lits "import" ++ [.ws1] ++ lits "subprocess" ++ [.ws0, .eol],
    lits "import" ++ [.ws1] ++ lits "sys" ++ [.ws0, .eol],
    lits "__import__" ++ [.ws0, .lit '('],
    lits "eval" ++ [.ws0, .lit '('],
    lits "exec" ++ [.ws0, .lit '('],
    lits "compile" ++ [.ws0, .lit '('],
    lits "open" ++ [.ws0, .lit '('],
    lits "file" ++ [.ws0, .lit '('],
    lits "input" ++ [.ws0, .lit '('],
    lits "raw_input" ++ [.ws0, .lit '('],
    lits "getattr" ++ [.ws0, .lit '('],
    lits "setattr" ++ [.ws0, .lit '('],
    lits "delattr" ++ [.ws0, .lit '('],
    lits "hasattr" ++ [.ws0, .lit '('],
    lits "globals" ++ [.ws0, .lit '('],
    lits "locals" ++ [.ws0, .lit '('],
    lits "vars" ++ [.ws0, .lit '('],
    lits "dir" ++ [.ws0, .lit '('],
    lits "help" ++ [.ws0, .lit '('],
    lits "quit" ++ [.ws0, .lit '('],
    lits "exit" ++ [.ws0, .lit '('],
    lits "while" ++ [.ws1] ++ lits "True" ++ [.ws0, .lit ':'],
    lits "for" ++ [.ws1, .anyStar, .ws1] ++ lits "in" ++ [.ws1, .anyStar, .ws0, .lit ':',
      .anyStar] ++ lits "while" ++ [.ws1] ++ lits "True",
    lits "import" ++ [.ws1, .anyStar, .ws0, .lit ';', .anyStar] ++ lits "import" ++
      [.ws1, .anyStar, .ws0, .lit ';', .anyStar] ++ lits "import" ++ [.ws1, .anyStar] ]

/-- `any(pattern.search(v) for pattern in COMPILED_DANGEROUS_PATTERNS)`. -/
def dangerousMatch (v : List Char) : Bool :=
  dangerousPatterns.any fun p => searchToks p v

/-- The `validate_code` pydantic validator: empty / oversized / denylist
checks in order, returning the stripped code on success. -/
def validateCode (v : List Char) : Except String (List Char) :=
  if v = [] ∨ pyStrip v = [] then .error "Code cannot be empty"
  else if 100000 < v.length then
    .error "Code size exceeds maximum limit of 100000 characters"
  else if dangerousMatch v then
    .error "Code contains potentially dangerous operations and cannot be analyzed"
  else .ok (pyStrip v)

/-- The `/analyze` request flow around an arbitrary downstream analysis
`f` (sanitization, metric computation and response assembly): pydantic
validation runs first, so on a validation error `f` is never applied and
its output appears in no response. -/
def runEndpoint {α : Type} (f : List Char → α) (code : List Char) : Except String α :=
  (validateCode code).map f

/-! ## Python AST and `CodeAnalyzer._calculate_python_metrics`

`ast.parse` is external; a parsed tree enters the model as a `PyTree`
whose node kinds cover every `isinstance` test the metric and AST passes
make.  `ast.walk` is a breadth-first traversal; the embedding lists nodes
in preorder, which agrees on all counting uses. -/

/-- Node kinds distinguished by the analyzer (`exceptH true` is a bare
`except:` handler, `boolOp` is the `ast.And`/`ast.Or` operator node one of
which each `BoolOp` contributes to the walk). -/
inductive PyKind where
  | module
  | functionDef
  | asyncFunctionDef
  | classDef
  | ifK
  | whileK
  | forK
  | asyncForK
  | exceptH (bare : Bool)
  | boolAnd
  | boolOr
  | ret
  | constK
  | argsK
  | other
  deriving Repr, DecidableEq

/-- A Python AST node: kind, source line, children. -/
inductive PyTree where
  | node (k : PyKind) (line : ℕ) (children : List PyTree)
  deriving Repr

mutual
def nodeList : PyTree → List (PyKind × ℕ)
  | .node k ln cs => (k, ln) :: nodeListChildren cs
def nodeListChildren : List PyTree → List (PyKind × ℕ)
  | [] => []
  | c :: cs => nodeList c ++ nodeListChildren cs
end

/-- Number of walked nodes satisfying a kind predicate. -/
def countNodes (p : PyKind → Bool) (t : PyTree) : ℕ :=
  ((nodeList t).filter fun kl => p kl.1).length

/-- Kinds the complexity loop counts: `If`, `While`, `For`, `AsyncFor`,
`ExceptHandler`, `And`, `Or`. -/
def isBranchKind : PyKind → Bool
  | .ifK | .whileK | .forK | .asyncForK => true
  | .exceptH _ => true
  | .boolAnd | .boolOr => true
  | _ => false

/-- `_calculate_cyclomatic_complexity`: base 1 plus one per branch node. -/
def cyclomaticComplexity (t : PyTree) : ℕ :=
  1 + countNodes isBranchKind t

/-- Python's `round(x, 1)` on the exact rationals the metrics produce. -/
def round1 (q : ℚ) : ℚ :=
  (round (q * 10) : ℚ) / 10

/-- The `CodeMetrics` dataclass (floats as exact rationals). -/
structure CodeMetrics where
  lines_of_code : ℕ
  cyclomatic_complexity : ℕ
  maintainability_index : ℚ
  function_count : ℕ
  class_count : ℕ
  comment_ratio : ℚ
  deriving Repr, DecidableEq

/-- Is the line non-blank and not a `#` comment after stripping? -/
def isCodeLine (l : List Char) : Bool :=
  !(pyStrip l).isEmpty && !startsWith ['#'] (pyStrip l)

/-- Does the stripped line start with `#`? -/
def isCommentLine (l : List Char) : Bool :=
  startsWith ['#'] (pyStrip l)

/-- `_calculate_python_metrics(code, tree)`. -/
def calcPythonMetrics (code : List Char) (t : PyTree) : CodeMetrics :=
  let lines := pyLines code
  let loc := (lines.filter isCodeLine).length
  let fc := countNodes (fun k => k = .functionDef) t
  let cc := countNodes (fun k => k = .classDef) t
  let cx := cyclomaticComplexity t
  let cl := (lines.filter isCommentLine).length
  let ratio := (cl : ℚ) / (max loc 1 : ℕ) * 100
  let mi : ℚ := max 0 (100 - (cx : ℚ) * 2 - (loc : ℚ) / 10)
  { lines_of_code := loc
    cyclomatic_complexity := cx
    maintainability_index := round1 mi
    function_count := fc
    class_count := cc
    comment_ratio := round1 ratio }

/-- `_create_default_metrics(code)` (used when parsing fails): counts all
lines, not only code lines. -/
def defaultMetrics (code : List Char) : CodeMetrics :=
  { lines_of_code := (pyLines code).length
    cyclomatic_complexity := 1
    maintainability_index := 50
    function_count := 0
    class_count := 0
    comment_ratio := 0 }

/-- `_analyze_ast_issues(tree)`: one warning per bare `except:` handler.
(Walk order is preorder here, breadth-first in the source; the set of
issues is the same.) -/
def astIssuesOf (t : PyTree) : List CodeIssue :=
  (nodeList t).filterMap fun kl =>
    if kl.1 = .exceptH true then
      some ⟨"warning", "Bare except clause - consider specifying exception types",
        kl.2, "medium", some "BARE_EXCEPT"⟩
    else none

/-! ## Analysis pipeline: `analyze_code` / `_analyze_python`

External executions enter as outcome values: `parse` is the `ast.parse`
call (its error is a `SyntaxError`), `bandit` the subprocess run, and each
remaining detector call is an `Except String (List CodeIssue)` — `.error`
models the call raising.  The sequencing below mirrors `_analyze_python`:
only the bandit subprocess sits inside its own `try/except`; every other
raise escapes to `analyze_code`'s catch-all. -/

/-- A reported bandit finding (fields read from the JSON output). -/
structure BanditIssue where
  issue_severity : String
  issue_text : String
  line_number : ℕ
  test_id : String
  deriving Repr, DecidableEq

/-- Outcome of the bandit subprocess: the run raised (file or subprocess
error, timeout), or completed with a return code and parsed results. -/
inductive BanditOutcome where
  | raised
  | ran (returncode : ℤ) (results : List BanditIssue)
  deriving Repr, DecidableEq

/-- A `SyntaxError`: message and line. -/
structure SyntaxErr where
  msg : String
  lineno : ℕ
  deriving Repr, DecidableEq

/-- The `try/except` body of `_run_bandit_analysis` (conversion of bandit
results, or the degraded-detector info note when the subprocess machinery
raises).  The trailing `_analyze_security_vulnerabilities` call sits
outside this `try` and is sequenced separately. -/
def banditIssues : BanditOutcome → List CodeIssue
  | .raised =>
    [⟨"info", "Consider running security analysis on your code", 1, "low", none⟩]
  | .ran rc results =>
    if rc = 0 then
      results.map fun iss =>
        ⟨if iss.issue_severity = "HIGH" then "error" else "warning",
         "Security: " ++ iss.issue_text, iss.line_number,
         (iss.issue_severity.toList.map Char.toLower).asString, some iss.test_id⟩
    else []

/-- The `AnalysisResult` dataclass. -/
structure AnalysisResult where
  language : String
  metrics : CodeMetrics
  issues : List CodeIssue
  suggestions : List String
  security_issues : List CodeIssue
  performance_issues : List CodeIssue
  memory_issues : List CodeIssue
  code_smell_issues : List CodeIssue
  async_issues : List CodeIssue
  api_issues : List CodeIssue
  data_flow_issues : List CodeIssue
  dependency_issues : List CodeIssue
  testing_issues : List CodeIssue
  algorithm_issues : List CodeIssue
  deriving Repr, DecidableEq

/-- External and detector outcomes for one `_analyze_python` run.
`astSugg` and `suggExtra` stand for the outputs of the suggestion
generators (no claim under verification concerns their content). -/
structure PyRun where
  parse : Except SyntaxErr PyTree
  astSugg : List String
  suggExtra : List String
  bandit : BanditOutcome
  secScan : Except String (List CodeIssue)
  perfRun : Except String (List CodeIssue)
  memRun : Except String (List CodeIssue)
  smellRun : Except String (List CodeIssue)
  asyncRun : Except String (List CodeIssue)
  apiRun : Except String (List CodeIssue)
  dataFlowRun : Except String (List CodeIssue)
  depRun : Except String (List CodeIssue)
  testRun : Except String (List CodeIssue)
  algoRun : Except String (List CodeIssue)

/-- `_analyze_python(code)`: an `Except.error` is an exception escaping the
method. -/
def analyzePythonE (code : List Char) (r : PyRun) : Except String AnalysisResult := do
  let (metrics, issues0, sugg0) :=
    match r.parse with
    | .ok tree => (calcPythonMetrics code tree, astIssuesOf tree, r.astSugg)
    | .error se =>
      (defaultMetrics code,
       [⟨"error", "Syntax error: " ++ se.msg, se.lineno, "high", none⟩],
       ([] : List String))
  let sec2 ← r.secScan
  let security := banditIssues r.bandit ++ sec2
  let perf ← r.perfRun
  let mem ← r.memRun
  let smell ← r.smellRun
  let asyncL ← r.asyncRun
  let api ← r.apiRun
  let dataF ← r.dataFlowRun
  let dep ← r.depRun
  let testL ← r.testRun
  let algo ← r.algoRun
  pure
    { language := "python"
      metrics := metrics
      issues := issues0
      suggestions := sugg0 ++ r.suggExtra
      security_issues := security
      performance_issues := perf
      memory_issues := mem
      code_smell_issues := smell
      async_issues := asyncL
      api_issues := api
      data_flow_issues := dataF
      dependency_issues := dep
      testing_issues := testL
      algorithm_issues := algo }

/-- `_create_error_result(error_message)`. -/
def errorResult (e : String) : AnalysisResult :=
  { language := "unknown"
    metrics := defaultMetrics []
    issues := [⟨"error", "Analysis failed: " ++ e, 1, "high", none⟩]
    suggestions := ["Please check your code syntax and try again"]
    security_issues := []
    performance_issues := []
    memory_issues := []
    code_smell_issues := []
    async_issues := []
    api_issues := []
    data_flow_issues := []
    dependency_issues := []
    testing_issues := []
    algorithm_issues := [] }

/-- `analyze_code(code, 'python')`: catches any exception from
`_analyze_python` and degrades to `_create_error_result`. -/
def analyzeCodeModel (code : List Char) (r : PyRun) : AnalysisResult :=
  match analyzePythonE code r with
  | .ok res => res
  | .error e => errorResult e

/-! ## Suspicion scoring: `JWTUserManager.detect_suspicious_activity`

The score accumulates Python floats.  All values reached are IEEE-754
doubles that are integer multiples of 2⁻⁵⁶, so a double is carried as its
numerator at that scale; `fadd` adds exactly and rounds to 53 significant
bits with ties to even, which is bit-exact double addition here.  The
constants are the doubles `0.3`, `0.4`, `0.2`, `0.1`, `0.7` at scale 2⁻⁵⁶. -/

/-- Bit length of `n` (for `n < 2⁶⁴`): the number of exponents `k < 64`
with `2^k ≤ n`. -/
def bitLen (n : ℕ) : ℕ :=
  ((List.range 64).filter fun k => 2 ^ k ≤ n).length

/-- Round a 2⁻⁵⁶-scaled numerator to 53 significant bits, ties to even. -/
def roundMant (n : ℕ) : ℕ :=
  if n < 2 ^ 53 then n
  else
    let b := bitLen n
    let s := b - 53
    let q := n / 2 ^ s
    let r := n % 2 ^ s
    let h := 2 ^ (s - 1)
    let q' := if h < r then q + 1 else if r = h ∧ q % 2 = 1 then q + 1 else q
    q' * 2 ^ s

/-- IEEE-754 double addition on 2⁻⁵⁶-scaled numerators. -/
def fadd (a b : ℕ) : ℕ :=
  roundMant (a + b)

/-- The double `0.3` at scale 2⁻⁵⁶. -/
def w03 : ℕ := 21617278211378380

/-- The double `0.4` at scale 2⁻⁵⁶. -/
def w04 : ℕ := 28823037615171176

/-- The double `0.2` at scale 2⁻⁵⁶. -/
def w02 : ℕ := 14411518807585588

/-- The double `0.1` at scale 2⁻⁵⁶. -/
def w01 : ℕ := 7205759403792794

/-- The double `0.7` at scale 2⁻⁵⁶. -/
def w07 : ℕ := 50440315826549552

/-- The float score accumulated in source order over the four fired
indicators (volume, dangerous attempts, rate-limit violations, unusual
times). -/
def scoreF (b1 b2 b3 b4 : Bool) : ℕ :=
  let s1 := if b1 then fadd 0 w03 else 0
  let s2 := if b2 then fadd s1 w04 else s1
  let s3 := if b3 then fadd s2 w02 else s2
  if b4 then fadd s3 w01 else s3

/-- One tracked activity record (hour extracted from the ISO timestamp). -/
structure Activity where
  activity : String
  hour : ℕ
  ip_address : Option String
  deriving Repr, DecidableEq

/-- `len(activities) > 100`. -/
def indicatorVolume (acts : List Activity) : Bool :=
  decide (100 < acts.length)

/-- Count of `dangerous_code_detected` activities. -/
def dangerousAttempts (acts : List Activity) : ℕ :=
  (acts.filter fun a => a.activity = "dangerous_code_detected").length

/-- Count of `rate_limit_exceeded` activities. -/
def rateLimitViolations (acts : List Activity) : ℕ :=
  (acts.filter fun a => a.activity = "rate_limit_exceeded").length

/-- Count of activities between 2 AM and 6 AM (`2 <= hour <= 6`). -/
def unusualTimes (acts : List Activity) : ℕ :=
  (acts.filter fun a => 2 ≤ a.hour ∧ a.hour ≤ 6).length

/-- The returned analysis of `detect_suspicious_activity`:
`suspicious_score` is the double as an exact rational. -/
structure SuspicionReport where
  suspicious_score : ℚ
  recommendation : String
  deriving Repr, DecidableEq

/-- `detect_suspicious_activity` over the last day's records. -/
def detectSuspicious (acts : List Activity) : SuspicionReport :=
  let b1 := indicatorVolume acts
  let b2 := decide (3 < dangerousAttempts acts)
  let b3 := decide (5 < rateLimitViolations acts)
  let b4 := decide (10 < unusualTimes acts)
  let n := scoreF b1 b2 b3 b4
  { suspicious_score := (n : ℚ) / 2 ^ 56
    recommendation :=
      if w07 < n then "block_user" else if w03 < n then "monitor" else "normal" }

/-- Exact-arithmetic score read of the specification sentence: the sum of
the four stated contributions as rationals. -/
def specScore (acts : List Activity) : ℚ :=
  (if indicatorVolume acts then (3 : ℚ) / 10 else 0) +
    (if 3 < dangerousAttempts acts then (4 : ℚ) / 10 else 0) +
    (if 5 < rateLimitViolations acts then (2 : ℚ) / 10 else 0) +
    (if 10 < unusualTimes acts then (1 : ℚ) / 10 else 0)

/-- Recommendation the claim derives from the exact score: block above 0.7,
monitor above 0.3, normal otherwise. -/
def specRecommendation (acts : List Activity) : String :=
  if (7 : ℚ) / 10 < specScore acts then "block_user"
  else if (3 : ℚ) / 10 < specScore acts then "monitor"
  else "normal"

/-! ## Identity resolution: `verify_user_token` and `get_current_user`

JWT signature checking is cryptographic and external; the outcome of
`jwt.decode` enters as a `TokenOutcome`. -/

/-- Decoded token payload fields the endpoints read. -/
structure UserData where
  user_id : String
  subscription_plan : String
  deriving Repr, DecidableEq

/-- Outcome of `jwt.decode` on a presented token: a verified payload, an
`ExpiredSignatureError`, or an `InvalidTokenError` (bad signature,
malformed token). -/
inductive TokenOutcome where
  | payload (u : UserData)
  | expiredSig
  | invalidTok
  deriving Repr, DecidableEq

/-- `JWTUserManager.verify_user_token`: re-raises decode failures as
`ValueError` with the messages from the source. -/
def verifyUserToken : TokenOutcome → Except String UserData
  | .payload u => .ok u
  | .expiredSig => .error "Token expired"
  | .invalidTok => .error "Invalid token"

/-- `get_current_user`: absent credentials give the anonymous identity
(`none`); a `ValueError` from verification is caught and likewise degrades
to anonymous.  The function is total: no failure escapes. -/
def getCurrentUser : Option TokenOutcome → Option UserData
  | none => none
  | some t =>
    match verifyUserToken t with
    | .ok u => some u
    | .error _ => none

/-! ## Concrete fixture: the program `def f(): return 1`

`ast.parse "def f(): return 1"` yields
`Module(body=[FunctionDef(name='f', args=arguments(), body=[Return(Constant(1))])])`. -/

/-- The source text of the fixture. -/
def fCode : List Char :=
  "def f(): return 1".toList

/-- The parse tree of the fixture. -/
def fTree : PyTree :=
  .node .module 1
    [.node .functionDef 1
      [.node .argsK 1 [], .node .ret 1 [.node .constK 1 []]]]

/-- Clamp `x` into `[lo, hi]` (the specification's `clamp(lo, hi, x)`). -/
def specClamp (lo hi x : ℚ) : ℚ :=
  max lo (min hi x)

/-- Non-blank, non-comment line count of the source (the specification's
`code_lines`). -/
def codeLineCount (code : List Char) : ℕ :=
  ((pyLines code).filter isCodeLine).length

/-- Comment line count of the source. -/
def commentLineCount (code : List Char) : ℕ :=
  ((pyLines code).filter isCommentLine).length

theorem checkCore_snd_eq_rlStep (rq w : ℕ) (plan : String) (l : List ℤ) (t : ℤ) :
    (checkCore rq w plan l t).2 = rlStep w l t := rfl

theorem runChecks_length (rq w : ℕ) (plan : String) (l : List ℤ) (ts : List ℤ) :
    (runChecks rq w plan l ts).length = ts.length := by
  induction ts generalizing l with
  | nil => rfl
  | cons t ts ih => simp [runChecks, ih]

/-! ## Claim C4: fail-open on store unavailability -/

/-- C4: for every plan and time, when the shared store is unavailable (every
store operation raises), `check_rate_limit` does not raise and does not
deny: it returns `allowed = true` with `remaining` equal to the full plan
quota, carries the explicit degradation marker (`error` key), and leaves
the store untouched. -/
theorem c4_fail_open (plan : String) (t : ℤ) :
    (checkRateLimit plan none t).1.allowed = true ∧
      (checkRateLimit plan none t).1.remaining = (defaultLimits plan).1 ∧
      (checkRateLimit plan none t).1.error = some "Redis unavailable, allowing request" ∧
      (checkRateLimit plan none t).2 = none := by
  refine ⟨rfl, rfl, rfl, rfl⟩

/-! ## Claim C5: invalid tokens downgrade to anonymous -/

/-- C5: identity resolution never hard-fails on a bad token: an expired
signature and an invalid token each resolve to the anonymous identity
(`none`), and in general any verification failure of a presented token
does so; absent credentials are anonymous as well. -/
theorem c5_token_failure_downgrades :
    getCurrentUser (some .expiredSig) = none ∧
      getCurrentUser (some .invalidTok) = none ∧
      (∀ tok : TokenOutcome, (∃ e, verifyUserToken tok = .error e) →
        getCurrentUser (some tok) = none) ∧
      getCurrentUser none = none := by
  refine ⟨rfl, rfl, ?_, rfl⟩
  intro tok ⟨e, he⟩
  cases tok with
  | payload u => simp [verifyUserToken] at he
  | expiredSig => rfl
  | invalidTok => rfl

/-! ## Claim C2: detector isolation -/

/-- C2 counterexample: with a parseable input, the bandit step succeeding,
the security scanner succeeding, the memory detector succeeding with a
finding, and only the performance detector raising, `analyze_code` returns
`_create_error_result`: the pipeline is aborted and the memory detector's
finding is suppressed, contradicting the claim that one failing detector
leaves the other categories' findings in the result. -/
theorem c2_isolation_counterexample :
    analyzeCodeModel fCode
        { parse := .ok fTree, astSugg := [], suggExtra := [], bandit := .ran 0 []
          secScan := .ok [], perfRun := .error "boom"
          memRun := .ok [⟨"warning", "unbounded cache growth", 3, "medium", some "MEM_CACHE"⟩]
          smellRun := .ok [], asyncRun := .ok [], apiRun := .ok [], dataFlowRun := .ok []
          depRun := .ok [], testRun := .ok [], algoRun := .ok [] }
      = errorResult "boom" ∧
    (analyzeCodeModel fCode
        { parse := .ok fTree, astSugg := [], suggExtra := [], bandit := .ran 0 []
          secScan := .ok [], perfRun := .error "boom"
          memRun := .ok [⟨"warning", "unbounded cache growth", 3, "medium", some "MEM_CACHE"⟩]
          smellRun := .ok [], asyncRun := .ok [], apiRun := .ok [], dataFlowRun := .ok []
          depRun := .ok [], testRun := .ok [], algoRun := .ok [] }).memory_issues
      = [] := by
  exact ⟨rfl, rfl⟩

/-- C2 amended: only the bandit subprocess is isolated at its own boundary.
First conjunct: when bandit raises but every other step succeeds, the
pipeline completes, the degraded-detector info note is prepended to the
security findings, and every other category's findings appear unchanged.
Second conjunct: an exception in any other detector (here the algorithm
detector, the last in sequence, with all ten other category computations
succeeding with arbitrary findings) escapes to `analyze_code`'s catch-all,
which replaces the whole analysis by `_create_error_result`, suppressing
every category's findings. -/
theorem c2_isolation_amended :
    (∀ (code : List Char) (tree : PyTree) (s1 s2 : List String)
        (scanL perfL memL smellL asyncL apiL dfL depL testL algoL : List CodeIssue),
      (analyzeCodeModel code
          { parse := .ok tree, astSugg := s1, suggExtra := s2, bandit := .raised
            secScan := .ok scanL, perfRun := .ok perfL, memRun := .ok memL
            smellRun := .ok smellL, asyncRun := .ok asyncL, apiRun := .ok apiL
            dataFlowRun := .ok dfL, depRun := .ok depL, testRun := .ok testL
            algoRun := .ok algoL }).security_issues
          = ⟨"info", "Consider running security analysis on your code", 1, "low", none⟩ ::
              scanL ∧
        (analyzeCodeModel code
          { parse := .ok tree, astSugg := s1, suggExtra := s2, bandit := .raised
            secScan := .ok scanL, perfRun := .ok perfL, memRun := .ok memL
            smellRun := .ok smellL, asyncRun := .ok asyncL, apiRun := .ok apiL
            dataFlowRun := .ok dfL, depRun := .ok depL, testRun := .ok testL
            algoRun := .ok algoL }).performance_issues = perfL ∧
        (analyzeCodeModel code
          { parse := .ok tree, astSugg := s1, suggExtra := s2, bandit := .raised
            secScan := .ok scanL, perfRun := .ok perfL, memRun := .ok memL
            smellRun := .ok smellL, asyncRun := .ok asyncL, apiRun := .ok apiL
            dataFlowRun := .ok dfL, depRun := .ok depL, testRun := .ok testL
            algoRun := .ok algoL }).memory_issues = memL ∧
        (analyzeCodeModel code
          { parse := .ok tree, astSugg := s1, suggExtra := s2, bandit := .raised
            secScan := .ok scanL, perfRun := .ok perfL, memRun := .ok memL
            smellRun := .ok smellL, asyncRun := .ok asyncL, apiRun := .ok apiL
            dataFlowRun := .ok dfL, depRun := .ok depL, testRun := .ok testL
            algoRun := .ok algoL }).metrics = calcPythonMetrics code tree) ∧
    (∀ (code : List Char) (tree : PyTree) (s1 s2 : List String) (b : BanditOutcome)
        (e : String)
        (scanL perfL memL smellL asyncL apiL dfL depL testL : List CodeIssue),
      analyzeCodeModel code
          { parse := .ok tree, astSugg := s1, suggExtra := s2, bandit := b
            secScan := .ok scanL, perfRun := .ok perfL, memRun := .ok memL
            smellRun := .ok smellL, asyncRun := .ok asyncL, apiRun := .ok apiL
            dataFlowRun := .ok dfL, depRun := .ok depL, testRun := .ok testL
            algoRun := .error e }
        = errorResult e) := by
  constructor
  · intro code tree s1 s2 scanL perfL memL smellL asyncL apiL dfL depL testL algoL
    exact ⟨rfl, rfl, rfl, rfl⟩
  · intro code tree s1 s2 b e scanL perfL memL smellL asyncL apiL dfL depL testL
    rfl

/-! ## Claim C3: the `def f(): return 1` fixture -/

/-- C3: analyzing `"def f(): return 1"` as python (its parse tree being
`fTree`) yields `function_count = 1`, `class_count = 0` and
`cyclomatic_complexity = 1`, and — with the bandit subprocess completing
cleanly with no reported results and the security scanner running on the
input — the result's list of security findings is empty, whatever the
other detectors and suggestion generators produce. -/
theorem c3_fixture_analysis
    (s1 s2 : List String)
    (perfL memL smellL asyncL apiL dfL depL testL algoL : List CodeIssue) :
    (analyzeCodeModel fCode
        { parse := .ok fTree, astSugg := s1, suggExtra := s2, bandit := .ran 0 []
          secScan := .ok (secVulns fCode), perfRun := .ok perfL, memRun := .ok memL
          smellRun := .ok smellL, asyncRun := .ok asyncL, apiRun := .ok apiL
          dataFlowRun := .ok dfL, depRun := .ok depL, testRun := .ok testL
          algoRun := .ok algoL }).metrics.function_count = 1 ∧
      (analyzeCodeModel fCode
        { parse := .ok fTree, astSugg := s1, suggExtra := s2, bandit := .ran 0 []
          secScan := .ok (secVulns fCode), perfRun := .ok perfL, memRun := .ok memL
          smellRun := .ok smellL, asyncRun := .ok asyncL, apiRun := .ok apiL
          dataFlowRun := .ok dfL, depRun := .ok depL, testRun := .ok testL
          algoRun := .ok algoL }).metrics.class_count = 0 ∧
      (analyzeCodeModel fCode
        { parse := .ok fTree, astSugg := s1, suggExtra := s2, bandit := .ran 0 []
          secScan := .ok (secVulns fCode), perfRun := .ok perfL, memRun := .ok memL
          smellRun := .ok smellL, asyncRun := .ok asyncL, apiRun := .ok apiL
          dataFlowRun := .ok dfL, depRun := .ok depL, testRun := .ok testL
          algoRun := .ok algoL }).metrics.cyclomatic_complexity = 1 ∧
      (analyzeCodeModel fCode
        { parse := .ok fTree, astSugg := s1, suggExtra := s2, bandit := .ran 0 []
          secScan := .ok (secVulns fCode), perfRun := .ok perfL, memRun := .ok memL
          smellRun := .ok smellL, asyncRun := .ok asyncL, apiRun := .ok apiL
          dataFlowRun := .ok dfL, depRun := .ok depL, testRun := .ok testL
          algoRun := .ok algoL }).security_issues = [] := by
  refine ⟨rfl, rfl, rfl, rfl⟩

/-! ## Claim C7: suspicion score -/

/-- C7 counterexample: eleven `rate_limit_exceeded` activities at 3 AM set
exactly the violations (+0.2) and overnight (+0.1) indicators.  The claim's
exact sum is 0.3, not greater than 0.3, so the claim prescribes "normal";
the code's float sum is 0.30000000000000004 > 0.3 and it recommends
"monitor". -/
theorem c7_float_threshold_counterexample :
    (detectSuspicious (List.replicate 11 ⟨"rate_limit_exceeded", 3, none⟩)).recommendation
        = "monitor" ∧
      specScore (List.replicate 11 ⟨"rate_limit_exceeded", 3, none⟩) = 3 / 10 ∧
      specRecommendation (List.replicate 11 ⟨"rate_limit_exceeded", 3, none⟩)
        = "normal" ∧
      "monitor" ≠ "normal" := by
  have h1 : indicatorVolume (List.replicate 11 ⟨"rate_limit_exceeded", 3, none⟩) = false := by
    decide
  have h2 : dangerousAttempts (List.replicate 11 ⟨"rate_limit_exceeded", 3, none⟩) = 0 := by
    decide
  have h3 : rateLimitViolations (List.replicate 11 ⟨"rate_limit_exceeded", 3, none⟩) = 11 := by
    decide
  have h4 : unusualTimes (List.replicate 11 ⟨"rate_limit_exceeded", 3, none⟩) = 11 := by
    decide
  have hs : specScore (List.replicate 11 ⟨"rate_limit_exceeded", 3, none⟩) = 3 / 10 := by
    unfold specScore
    rw [h1, h2, h3, h4]
    norm_num
  refine ⟨by decide, hs, ?_, by decide⟩
  rw [specRecommendation, hs]
  norm_num

/-- C7 amended: the suspicion score is the IEEE-754 double sum of the four
stated contributions, accumulated in source order.  It always lies in
[0, 1] and is non-decreasing in each indicator, and the recommendation
thresholds compare doubles, which differs from the exact-sum reading in
exactly two indicator combinations: violations+overnight alone score just
above 0.3 (monitor, not normal), and dangerous+violations+overnight score
just above 0.7 (block, not monitor).  Equivalently, the recommendation is
`block_user` when the dangerous indicator fires together with either the
volume indicator and at least one of violations/overnight, or with both
violations and overnight; it is `monitor` when, short of that, the
dangerous indicator fires, or volume fires with one of violations/overnight,
or violations and overnight both fire; and it is `normal` otherwise. -/
theorem c7_score_amended :
    (∀ acts : List Activity,
      (detectSuspicious acts).suspicious_score =
        (scoreF (indicatorVolume acts) (decide (3 < dangerousAttempts acts))
            (decide (5 < rateLimitViolations acts)) (decide (10 < unusualTimes acts)) : ℚ)
          / 2 ^ 56) ∧
    (∀ acts : List Activity,
      0 ≤ (detectSuspicious acts).suspicious_score ∧
        (detectSuspicious acts).suspicious_score ≤ 1) ∧
    (∀ a1 a2 a3 a4 b1 b2 b3 b4 : Bool, a1 ≤ b1 → a2 ≤ b2 → a3 ≤ b3 → a4 ≤ b4 →
      scoreF a1 a2 a3 a4 ≤ scoreF b1 b2 b3 b4) ∧
    (∀ acts : List Activity,
      (detectSuspicious acts).recommendation =
        (if (decide (3 < dangerousAttempts acts) &&
              ((indicatorVolume acts &&
                  (decide (5 < rateLimitViolations acts) || decide (10 < unusualTimes acts))) ||
                (decide (5 < rateLimitViolations acts) && decide (10 < unusualTimes acts))))
            = true then "block_user"
         else if (decide (3 < dangerousAttempts acts) ||
              (indicatorVolume acts &&
                (decide (5 < rateLimitViolations acts) || decide (10 < unusualTimes acts))) ||
              (decide (5 < rateLimitViolations acts) && decide (10 < unusualTimes acts)))
            = true then "monitor"
         else "normal")) := by
  refine ⟨fun acts => rfl, ?_, by decide, ?_⟩
  · intro acts
    show (0 : ℚ) ≤ (scoreF _ _ _ _ : ℚ) / 2 ^ 56 ∧ (scoreF _ _ _ _ : ℚ) / 2 ^ 56 ≤ 1
    constructor
    · positivity
    · rw [div_le_one (by positivity)]
      have h : scoreF (indicatorVolume acts) (decide (3 < dangerousAttempts acts))
          (decide (5 < rateLimitViolations acts)) (decide (10 < unusualTimes acts)) ≤
          72057594037927936 := by
        cases indicatorVolume acts <;> cases decide (3 < dangerousAttempts acts) <;>
          cases decide (5 < rateLimitViolations acts) <;>
          cases decide (10 < unusualTimes acts) <;> decide
      calc (scoreF _ _ _ _ : ℚ) ≤ (72057594037927936 : ℕ) := by exact_mod_cast h
        _ = (2 : ℚ) ^ 56 := by norm_num
  · intro acts
    show (if w07 < scoreF _ _ _ _ then "block_user"
        else if w03 < scoreF _ _ _ _ then "monitor" else "normal") = _
    cases indicatorVolume acts <;> cases decide (3 < dangerousAttempts acts) <;>
      cases decide (5 < rateLimitViolations acts) <;>
      cases decide (10 < unusualTimes acts) <;> decide

/-! ## Claim C8: metric formulas -/

/-- Rounding to one decimal is the identity on multiples of one tenth. -/
theorem round1_tenth (n : ℤ) : round1 ((n : ℚ) / 10) = (n : ℚ) / 10 := by
  unfold round1
  have h : ((n : ℚ) / 10) * 10 = (n : ℚ) := by field_simp
  rw [h, round_intCast]

/-- C8 counterexample: for the parseable four-line input `"# c\na\nb\nc"`
(one comment line, three code lines) the code stores the comment ratio
rounded to one decimal, 33.3, while the claimed formula
`comment_lines / max(1, code_lines) × 100` has the exact value 100/3;
the two differ. -/
theorem c8_comment_ratio_counterexample :
    (calcPythonMetrics "# c\na\nb\nc".toList (.node .other 1 [])).comment_ratio = 333 / 10 ∧
      (commentLineCount "# c\na\nb\nc".toList : ℚ) /
          (max (codeLineCount "# c\na\nb\nc".toList) 1 : ℕ) * 100 = 100 / 3 ∧
      (333 : ℚ) / 10 ≠ 100 / 3 := by
  have hcl : commentLineCount "# c\na\nb\nc".toList = 1 := by decide
  have hloc : codeLineCount "# c\na\nb\nc".toList = 3 := by decide
  refine ⟨?_, ?_, by norm_num⟩
  · show round1 ((commentLineCount "# c\na\nb\nc".toList : ℚ) /
        (max (codeLineCount "# c\na\nb\nc".toList) 1 : ℕ) * 100) = 333 / 10
    rw [hcl, hloc]
    unfold round1
    rw [show (((1 : ℕ) : ℚ) / ((max 3 1 : ℕ) : ℚ) * 100 * 10) = 1000 / 3 by norm_num,
      round_eq]
    norm_num
  · rw [hcl, hloc]
    norm_num

/-- C8 amended: for every parseable python input, cyclomatic complexity is
`1 +` the number of branch nodes, the maintainability index is exactly
`clamp(0, 100, 100 − 2×complexity − code_lines/10)` (its value is always a
multiple of 0.1, so the code's rounding to one decimal never changes it),
and the comment ratio is `comment_lines / max(1, code_lines) × 100`
rounded to one decimal — equal to the unrounded claimed formula exactly
when that value is itself a multiple of 0.1. -/
theorem c8_metrics_amended :
    (∀ (code : List Char) (t : PyTree),
      (calcPythonMetrics code t).cyclomatic_complexity = 1 + countNodes isBranchKind t) ∧
    (∀ (code : List Char) (t : PyTree),
      (calcPythonMetrics code t).maintainability_index =
        specClamp 0 100
          (100 - 2 * (cyclomaticComplexity t : ℚ) - (codeLineCount code : ℚ) / 10)) ∧
    (∀ (code : List Char) (t : PyTree),
      (calcPythonMetrics code t).comment_ratio =
        round1 ((commentLineCount code : ℚ) / (max (codeLineCount code) 1 : ℕ) * 100)) ∧
    (∀ (code : List Char) (t : PyTree) (n : ℤ),
      (commentLineCount code : ℚ) / (max (codeLineCount code) 1 : ℕ) * 100 = (n : ℚ) / 10 →
      (calcPythonMetrics code t).comment_ratio =
        (commentLineCount code : ℚ) / (max (codeLineCount code) 1 : ℕ) * 100) := by
  refine ⟨fun code t => rfl, ?_, fun code t => rfl, ?_⟩
  · intro code t
    show round1 (max 0 (100 - (cyclomaticComplexity t : ℚ) * 2 - (codeLineCount code : ℚ) / 10))
        = specClamp 0 100 (100 - 2 * (cyclomaticComplexity t : ℚ) - (codeLineCount code : ℚ) / 10)
    have hcx : (1 : ℚ) ≤ (cyclomaticComplexity t : ℚ) := by
      exact_mod_cast Nat.le_add_right 1 (countNodes isBranchKind t)
    have hloc : (0 : ℚ) ≤ (codeLineCount code : ℚ) := by positivity
    have hform : (100 : ℚ) - (cyclomaticComplexity t : ℚ) * 2 - (codeLineCount code : ℚ) / 10
        = ((1000 - 20 * (cyclomaticComplexity t : ℤ) - (codeLineCount code : ℤ) : ℤ) : ℚ) / 10 := by
      push_cast
      ring
    have hle : (100 : ℚ) - (cyclomaticComplexity t : ℚ) * 2 - (codeLineCount code : ℚ) / 10
        ≤ 100 := by linarith
    rw [show (100 : ℚ) - 2 * (cyclomaticComplexity t : ℚ) - (codeLineCount code : ℚ) / 10
        = 100 - (cyclomaticComplexity t : ℚ) * 2 - (codeLineCount code : ℚ) / 10 by ring]
    rw [specClamp, min_eq_right hle]
    rcases le_total (100 - (cyclomaticComplexity t : ℚ) * 2 - (codeLineCount code : ℚ) / 10) 0
      with h0 | h0
    · rw [max_eq_left h0]
      unfold round1
      norm_num
    · rw [max_eq_right h0, hform, round1_tenth]
  · intro code t n h
    show round1 ((commentLineCount code : ℚ) / (max (codeLineCount code) 1 : ℕ) * 100) = _
    rw [h, round1_tenth]

/-! ## Claim C6: input validation -/

/-- C6: `validate_code` rejects, with a validation error and before any
downstream computation, every code string that is empty or
whitespace-only, longer than the 100,000-character ceiling, or matched by
the compiled case-insensitive multi-line denylist; in particular
`"import os\nprint('x')"` is rejected with the dangerous-operations
message, and for any downstream analysis whatsoever the endpoint flow
produces an error response in which that analysis was never invoked, so no
metrics are computed for it. -/
theorem c6_validation_rejects :
    (∀ v : List Char, (v = [] ∨ pyStrip v = []) →
      validateCode v = .error "Code cannot be empty") ∧
    (∀ v : List Char, pyStrip v ≠ [] → 100000 < v.length →
      validateCode v = .error "Code size exceeds maximum limit of 100000 characters") ∧
    (∀ v : List Char, dangerousMatch v = true → ∃ e, validateCode v = .error e) ∧
    validateCode "import os\nprint('x')".toList
      = .error "Code contains potentially dangerous operations and cannot be analyzed" ∧
    (∀ (α : Type) (f : List Char → α),
      runEndpoint f "import os\nprint('x')".toList
        = .error "Code contains potentially dangerous operations and cannot be analyzed") := by
  have h4 : validateCode "import os\nprint('x')".toList
      = .error "Code contains potentially dangerous operations and cannot be analyzed" := by
    unfold validateCode
    rw [if_neg (by decide), if_neg (by decide), if_pos (by decide)]
  refine ⟨?_, ?_, ?_, h4, ?_⟩
  · intro v h
    unfold validateCode
    rw [if_pos h]
  · intro v h1 h2
    have hne : ¬ (v = [] ∨ pyStrip v = []) := by
      rintro (rfl | h)
      · exact h1 rfl
      · exact h1 h
    unfold validateCode
    rw [if_neg hne, if_pos h2]
  · intro v h
    unfold validateCode
    split_ifs with e1 e2
    all_goals exact ⟨_, rfl⟩
  · intro α f
    show (validateCode _).map f = _
    rw [h4]
    rfl


/-! ## Claim C10: sanitizer vs. hardcoded-secret rule -/

theorem startsWith_iff_append (n : List Char) :
    ∀ l : List Char, startsWith n l = true ↔ ∃ t, l = n ++ t := by
  induction n with
  | nil =>
    intro l
    simp [startsWith]
  | cons a n ih =>
    intro l
    cases l with
    | nil =>
      simp [startsWith]
    | cons b l =>
      simp only [startsWith, Bool.and_eq_true, decide_eq_true_eq, ih l, List.cons_append,
        List.cons.injEq]
      constructor
      · rintro ⟨rfl, t, rfl⟩
        exact ⟨t, rfl, rfl⟩
      · rintro ⟨t, h1, h2⟩
        exact ⟨h1.symm, t, h2⟩

theorem hasSub_iff_parts (n : List Char) :
    ∀ l : List Char, hasSub n l = true ↔ ∃ s t, l = s ++ n ++ t := by
  intro l
  induction l with
  | nil =>
    simp only [hasSub, startsWith_iff_append]
    constructor
    · rintro ⟨t, ht⟩
      exact ⟨[], t, ht⟩
    · rintro ⟨s, t, h⟩
      obtain ⟨hsn, ht⟩ := List.append_eq_nil.mp h.symm
      obtain ⟨hs, hn⟩ := List.append_eq_nil.mp hsn
      exact ⟨[], by simp [hn]⟩
  | cons c l ih =>
    simp only [hasSub, Bool.or_eq_true, startsWith_iff_append, ih]
    constructor
    · rintro (⟨t, ht⟩ | ⟨s, t, h⟩)
      · exact ⟨[], t, by simp [ht]⟩
      · exact ⟨c :: s, t, by simp [h]⟩
    · rintro ⟨s, t, h⟩
      cases s with
      | nil => exact Or.inl ⟨t, by simpa using h⟩
      | cons a s =>
        injection h with h1 h2
        exact Or.inr ⟨s, t, h2⟩

theorem hasSub_trans {a b c : List Char} (h1 : hasSub a b = true) (h2 : hasSub b c = true) :
    hasSub a c = true := by
  rcases (hasSub_iff_parts b c).mp h2 with ⟨s2, t2, rfl⟩
  rcases (hasSub_iff_parts a b).mp h1 with ⟨s1, t1, rfl⟩
  refine (hasSub_iff_parts a _).mpr ⟨s2 ++ s1, t1 ++ t2, ?_⟩
  simp

theorem pyStrip_parts (l : List Char) : ∃ s t, l = s ++ pyStrip l ++ t := by
  refine ⟨l.takeWhile isPySpace,
    ((l.dropWhile isPySpace).reverse.takeWhile isPySpace).reverse, ?_⟩
  have h2 : l.dropWhile isPySpace =
      pyStrip l ++ ((l.dropWhile isPySpace).reverse.takeWhile isPySpace).reverse := by
    have hrev : (l.dropWhile isPySpace).reverse =
        (l.dropWhile isPySpace).reverse.takeWhile isPySpace ++
          (l.dropWhile isPySpace).reverse.dropWhile isPySpace :=
      (List.takeWhile_append_dropWhile isPySpace (l.dropWhile isPySpace).reverse).symm
    calc l.dropWhile isPySpace
        = (l.dropWhile isPySpace).reverse.reverse := (List.reverse_reverse _).symm
      _ = ((l.dropWhile isPySpace).reverse.takeWhile isPySpace ++
            (l.dropWhile isPySpace).reverse.dropWhile isPySpace).reverse := by rw [← hrev]
      _ = ((l.dropWhile isPySpace).reverse.dropWhile isPySpace).reverse ++
            ((l.dropWhile isPySpace).reverse.takeWhile isPySpace).reverse := by
          rw [List.reverse_append]
      _ = pyStrip l ++ ((l.dropWhile isPySpace).reverse.takeWhile isPySpace).reverse := rfl
  calc l = l.takeWhile isPySpace ++ l.dropWhile isPySpace :=
        (List.takeWhile_append_dropWhile isPySpace l).symm
    _ = l.takeWhile isPySpace ++
          (pyStrip l ++ ((l.dropWhile isPySpace).reverse.takeWhile isPySpace).reverse) := by
        rw [← h2]
    _ = l.takeWhile isPySpace ++ pyStrip l ++
          ((l.dropWhile isPySpace).reverse.takeWhile isPySpace).reverse := by
        rw [List.append_assoc]

theorem hasSub_of_strip {n l : List Char} (h : hasSub n (pyStrip l) = true) :
    hasSub n l = true := by
  rcases (hasSub_iff_parts n (pyStrip l)).mp h with ⟨s1, t1, he⟩
  rcases pyStrip_parts l with ⟨s0, t0, hl⟩
  refine (hasSub_iff_parts n l).mpr ⟨s0 ++ s1, t1 ++ t0, ?_⟩
  rw [hl, he]
  simp

theorem mem_collectIssues {iss : CodeIssue} :
    ∀ {cs : List (Bool × CodeIssue)}, iss ∈ collectIssues cs →
      ∃ pr, pr ∈ cs ∧ pr.1 = true ∧ pr.2 = iss := by
  intro cs
  induction cs with
  | nil => simp [collectIssues]
  | cons p cs ih =>
    rcases p with ⟨b, i⟩
    cases b with
    | false =>
      intro h
      rcases ih (by simpa [collectIssues] using h) with ⟨pr, hpr, hb, hi⟩
      exact ⟨pr, List.mem_cons_of_mem _ hpr, hb, hi⟩
    | true =>
      intro h
      rcases (List.mem_cons).mp (by simpa [collectIssues] using h) with rfl | h2
      · exact ⟨(true, iss), List.mem_cons_self _ _, rfl, rfl⟩
      · rcases ih h2 with ⟨pr, hpr, hb, hi⟩
        exact ⟨pr, List.mem_cons_of_mem _ hpr, hb, hi⟩

theorem pyLines_ne_nil (s : List Char) : pyLines s ≠ [] := by
  cases s with
  | nil => simp [pyLines]
  | cons c s =>
    unfold pyLines
    cases h : pyLines s with
    | nil => simp
    | cons hd tl =>
      by_cases hc : c = '\n' <;> simp [hc]

theorem newline_notin_pyLines (s : List Char) :
    ∀ l ∈ pyLines s, ('\n' : Char) ∉ l := by
  induction s with
  | nil =>
    intro l hl
    simp [pyLines] at hl
    simp [hl]
  | cons c s ih =>
    intro l hl
    cases h : pyLines s with
    | nil => exact absurd h (pyLines_ne_nil s)
    | cons hd tl =>
      have he : pyLines (c :: s) = if c = '\n' then [] :: hd :: tl else (c :: hd) :: tl := by
        unfold pyLines
        rw [h]
      rw [he] at hl
      by_cases hc : c = '\n'
      · rw [if_pos hc] at hl
        rcases List.mem_cons.mp hl with rfl | hl2
        · simp
        · exact ih l (h ▸ hl2)
      · rw [if_neg hc] at hl
        rcases List.mem_cons.mp hl with rfl | hl2
        · intro hmem
          rcases List.mem_cons.mp hmem with h1 | h2
          · exact hc h1.symm
          · exact ih hd (h ▸ List.mem_cons_self hd tl) h2
        · exact ih l (h ▸ List.mem_cons_of_mem hd hl2)

theorem pyLines_append (l : List Char) (hnl : ('\n' : Char) ∉ l) :
    ∀ (s : List Char) (hd : List Char) (tl : List (List Char)),
      pyLines s = hd :: tl → pyLines (l ++ s) = (l ++ hd) :: tl := by
  induction l with
  | nil =>
    intro s hd tl h
    simpa using h
  | cons c l ih =>
    intro s hd tl h
    have hc : c ≠ '\n' := fun hc => hnl (hc ▸ List.mem_cons_self c l)
    have hrest := ih (fun hm => hnl (List.mem_cons_of_mem c hm)) s hd tl h
    have he : pyLines (c :: (l ++ s)) =
        if c = '\n' then [] :: (l ++ hd) :: tl else (c :: (l ++ hd)) :: tl := by
      unfold pyLines
      rw [hrest]
    show pyLines (c :: (l ++ s)) = _
    rw [he, if_neg hc]
    rfl

theorem pyLines_pyUnlines :
    ∀ ls : List (List Char), ls ≠ [] → (∀ l ∈ ls, ('\n' : Char) ∉ l) →
      pyLines (pyUnlines ls) = ls := by
  intro ls
  induction ls with
  | nil => intro h; exact absurd rfl h
  | cons l ls ih =>
    intro _ hnl
    cases ls with
    | nil =>
      show pyLines (pyUnlines [l]) = [l]
      have hu : pyUnlines [l] = l ++ [] := by simp [pyUnlines]
      rw [hu]
      simpa using pyLines_append l (hnl l (List.mem_cons_self l [])) [] [] [] rfl
    | cons l2 ls2 =>
      have hrec : pyLines (pyUnlines (l2 :: ls2)) = l2 :: ls2 :=
        ih (by simp) (fun x hx => hnl x (List.mem_cons_of_mem l hx))
      have hu : pyUnlines (l :: l2 :: ls2) = l ++ '\n' :: pyUnlines (l2 :: ls2) := rfl
      rw [hu]
      have hmid : pyLines ('\n' :: pyUnlines (l2 :: ls2)) = [] :: l2 :: ls2 := by
        unfold pyLines
        rw [hrec]
        simp
      have := pyLines_append l (hnl l (List.mem_cons_self l _)) ('\n' :: pyUnlines (l2 :: ls2))
        [] (l2 :: ls2) hmid
      simpa using this

theorem secLineIssues_no_secret (i : ℕ) (line : List Char)
    (h : line = redactLine ∨ ∀ kw ∈ sanitizeKeywords, hasSub kw.toList (pyLower line) = false) :
    ∀ iss ∈ secLineIssues i line, iss.rule_id ≠ some "SEC_HARDCODED_SECRET" := by
  intro iss hm hrid
  rcases h with rfl | hkw
  · have hempty : secLineIssues i redactLine = [] := rfl
    rw [hempty] at hm
    exact absurd hm (List.not_mem_nil iss)
  · rcases mem_collectIssues hm with ⟨pr, hpr, hb, hiss⟩
    simp only [secChecks, List.mem_cons, List.not_mem_nil, or_false] at hpr
    have main : ∀ pat : String, pat ∈ ["password=", "secret=", "key=", "token=", "api_key="] →
        hasSub pat.toList (pyStrip (pyLower line)) = true → False := by
      intro pat hp hps
      have hline : ∀ kw : String, hasSub kw.toList pat.toList = true →
          hasSub kw.toList (pyLower line) = true :=
        fun kw hk => hasSub_of_strip (hasSub_trans hk hps)
      simp only [List.mem_cons, List.not_mem_nil, or_false] at hp
      rcases hp with rfl | rfl | rfl | rfl | rfl
      · have hc := hline "password" (by decide)
        rw [hkw "password" (by decide)] at hc
        simp at hc
      · have hc := hline "secret" (by decide)
        rw [hkw "secret" (by decide)] at hc
        simp at hc
      · have hc := hline "key" (by decide)
        rw [hkw "key" (by decide)] at hc
        simp at hc
      · have hc := hline "token" (by decide)
        rw [hkw "token" (by decide)] at hc
        simp at hc
      · have hc := hline "key" (by decide)
        rw [hkw "key" (by decide)] at hc
        simp at hc
    rcases hpr with rfl|rfl|rfl|rfl|rfl|rfl|rfl|rfl|rfl|rfl|rfl|rfl|rfl|rfl|rfl|rfl
    all_goals rw [← hiss] at hrid
    all_goals first
      | (simp at hrid; done)
      | (simp only [Bool.and_eq_true] at hb
         rcases List.any_eq_true.mp hb.1 with ⟨pat, hp, hps⟩
         exact main pat hp hps)

/-- C10: through the `/analyze` flow, analysis runs on the sanitizer's
output, in which every line containing one of the keywords `password`,
`secret`, `key`, `token`, `credential` (case-insensitively) has been
replaced by the fixed redaction comment; since every trigger pattern of
rule `SEC_HARDCODED_SECRET` contains such a keyword and the redaction
comment fires no rule, no finding with rule id `SEC_HARDCODED_SECRET`
can ever be produced over sanitized input. -/
theorem c10_sanitizer_blocks_hardcoded_secret (code : List Char) :
    ∀ iss ∈ secVulns (pySanitize code), iss.rule_id ≠ some "SEC_HARDCODED_SECRET" := by
  intro iss hm
  have hlines : pyLines (pySanitize code) = (pyLines code).map sanitizeLine := by
    apply pyLines_pyUnlines
    · intro h
      exact pyLines_ne_nil code (List.map_eq_nil_iff.mp h)
    · intro l hl
      rcases List.mem_map.mp hl with ⟨x, hx, rfl⟩
      unfold sanitizeLine
      split
      · decide
      · exact newline_notin_pyLines code x hx
  unfold secVulns at hm
  rw [hlines] at hm
  unfold secVulnsLines at hm
  rcases List.mem_flatMap.mp hm with ⟨⟨idx, ln⟩, hpair, hiss⟩
  have hln : ln ∈ (pyLines code).map sanitizeLine := (List.of_mem_zip hpair).2
  rcases List.mem_map.mp hln with ⟨x, hx, rfl⟩
  refine secLineIssues_no_secret (idx + 1) (sanitizeLine x) ?_ iss hiss
  by_cases hs : sanitizeKeywords.any (fun kw => hasSub kw.toList (pyLower x)) = true
  · left
    unfold sanitizeLine
    rw [if_pos hs]
  · right
    intro kw hkw
    have hx' : sanitizeLine x = x := by
      unfold sanitizeLine
      rw [if_neg hs]
    rw [hx']
    rcases hres : hasSub kw.toList (pyLower x) with _ | _
    · rfl
    · exact absurd (List.any_eq_true.mpr ⟨kw, hkw, hres⟩) hs

/-- C10 witness: an input that still produces a (different) security
finding after sanitization; the theorem applies to that finding. -/
theorem c10_sanitizer_witness :
    (⟨"vulnerability",
        "Sensitive data exposure - remove sensitive fields from API responses",
        1, "high", some "SEC_SENSITIVE_DATA_EXPOSURE"⟩ : CodeIssue).rule_id
      ≠ some "SEC_HARDCODED_SECRET" :=
  c10_sanitizer_blocks_hardcoded_secret "return ssn".toList _ (by decide)

/-! ## Claims C1 and C9: rate-limiter runs -/

theorem defaultLimits_pos (p : String) :
    0 < (defaultLimits p).1 ∧ 0 < (defaultLimits p).2 := by
  unfold defaultLimits
  split_ifs <;> exact ⟨by norm_num, by norm_num⟩

theorem stateAfter_nil (w : ℕ) (l : List ℤ) : stateAfter w l [] = l := rfl

theorem stateAfter_cons (w : ℕ) (l : List ℤ) (t : ℤ) (ts : List ℤ) :
    stateAfter w l (t :: ts) = stateAfter w (rlStep w l t) ts := rfl

theorem mem_rlStep_self (w : ℕ) (l : List ℤ) (t : ℤ) : t ∈ rlStep w l t := by
  unfold rlStep checkCore
  simp only
  split
  · assumption
  · exact List.mem_append_right _ (List.mem_singleton_self t)

theorem mem_rlStep_of_survives {w : ℕ} {l : List ℤ} {t x : ℤ} (hx : x ∈ l)
    (hs : ¬ (0 ≤ x ∧ x ≤ t - (w : ℤ))) : x ∈ rlStep w l t := by
  unfold rlStep checkCore
  simp only
  have hf : x ∈ l.filter fun y => decide (¬ (0 ≤ y ∧ y ≤ t - (w : ℤ))) :=
    List.mem_filter.mpr ⟨hx, decide_eq_true hs⟩
  split
  · exact hf
  · exact List.mem_append_left _ hf

theorem mem_stateAfter_of_mem_init {w : ℕ} {x : ℤ} :
    ∀ {ts l : List ℤ}, x ∈ l → (∀ u ∈ ts, ¬ (0 ≤ x ∧ x ≤ u - (w : ℤ))) →
      x ∈ stateAfter w l ts := by
  intro ts
  induction ts with
  | nil => intro l hx _; exact hx
  | cons u ts ih =>
    intro l hx hs
    rw [stateAfter_cons]
    exact ih (mem_rlStep_of_survives hx (hs u (List.mem_cons_self u ts)))
      (fun v hv => hs v (List.mem_cons_of_mem u hv))

theorem mem_stateAfter_of_mem {w : ℕ} {x : ℤ} :
    ∀ {ts l : List ℤ}, x ∈ ts → (∀ u ∈ ts, ¬ (0 ≤ x ∧ x ≤ u - (w : ℤ))) →
      x ∈ stateAfter w l ts := by
  intro ts
  induction ts with
  | nil => intro l hx; exact absurd hx (List.not_mem_nil x)
  | cons u ts ih =>
    intro l hx hs
    rw [stateAfter_cons]
    rcases List.mem_cons.mp hx with rfl | hx2
    · exact mem_stateAfter_of_mem_init (mem_rlStep_self w l x)
        (fun v hv => hs v (List.mem_cons_of_mem x hv))
    · exact ih hx2 (fun v hv => hs v (List.mem_cons_of_mem u hv))

theorem mem_stateAfter_src {w : ℕ} {x : ℤ} :
    ∀ {ts l : List ℤ}, x ∈ stateAfter w l ts → x ∈ l ∨ x ∈ ts := by
  intro ts
  induction ts with
  | nil => intro l hx; exact Or.inl hx
  | cons u ts ih =>
    intro l hx
    rw [stateAfter_cons] at hx
    rcases ih hx with hstep | hts
    · unfold rlStep checkCore at hstep
      simp only at hstep
      by_cases hmem : u ∈ l.filter fun y => decide (¬ (0 ≤ y ∧ y ≤ u - (w : ℤ)))
      · rw [if_pos hmem] at hstep
        exact Or.inl (List.mem_filter.mp hstep).1
      · rw [if_neg hmem] at hstep
        rcases List.mem_append.mp hstep with h1 | h2
        · exact Or.inl (List.mem_filter.mp h1).1
        · exact Or.inr (List.mem_cons.mpr (Or.inl (List.mem_singleton.mp h2)))
    · exact Or.inr (List.mem_cons_of_mem u hts)

theorem rlStep_no_evict {w : ℕ} {l : List ℤ} {t : ℤ}
    (hs : ∀ x ∈ l, ¬ (0 ≤ x ∧ x ≤ t - (w : ℤ))) (hf : t ∉ l) :
    rlStep w l t = l ++ [t] := by
  unfold rlStep checkCore
  simp only
  have hfilter : (l.filter fun y => decide (¬ (0 ≤ y ∧ y ≤ t - (w : ℤ)))) = l :=
    List.filter_eq_self.mpr (fun x hx => decide_eq_true (hs x hx))
  rw [hfilter, if_neg hf]

theorem stateAfter_within {w : ℕ} :
    ∀ {ts l : List ℤ},
      (∀ x ∈ l, ∀ u ∈ ts, ¬ (0 ≤ x ∧ x ≤ u - (w : ℤ))) →
      (∀ x ∈ ts, ∀ u ∈ ts, ¬ (0 ≤ x ∧ x ≤ u - (w : ℤ))) →
      (l ++ ts).Nodup →
      stateAfter w l ts = l ++ ts := by
  intro ts
  induction ts with
  | nil => intro l _ _ _; simp [stateAfter_nil]
  | cons u ts ih =>
    intro l h1 h2 hnd
    rw [stateAfter_cons]
    have hu : u ∉ l := by
      intro hul
      have := List.disjoint_of_nodup_append hnd
      exact this hul (List.mem_cons_self u ts)
    rw [rlStep_no_evict (fun x hx => h1 x hx u (List.mem_cons_self u ts)) hu]
    have hres := @ih (l ++ [u])
      (fun x hx v hv => by
        rcases List.mem_append.mp hx with hxl | hxu
        · exact h1 x hxl v (List.mem_cons_of_mem u hv)
        · rw [List.mem_singleton.mp hxu]
          exact h2 u (List.mem_cons_self u ts) v (List.mem_cons_of_mem u hv))
      (fun x hx v hv =>
        h2 x (List.mem_cons_of_mem u hx) v (List.mem_cons_of_mem u hv))
      (by simpa using hnd)
    rw [hres]
    simp

theorem runChecks_get (rq w : ℕ) (plan : String) :
    ∀ (ts l : List ℤ) (i : ℕ) (h1 : i < ts.length)
      (h2 : i < (runChecks rq w plan l ts).length),
      (runChecks rq w plan l ts).get ⟨i, h2⟩ =
        (checkCore rq w plan (stateAfter w l (ts.take i)) (ts.get ⟨i, h1⟩)).1 := by
  intro ts
  induction ts with
  | nil =>
    intro l i h1
    exact absurd h1 (by simp)
  | cons t ts ih =>
    intro l i h1 h2
    cases i with
    | zero => rfl
    | succ i =>
      have h1' : i < ts.length := Nat.succ_lt_succ_iff.mp h1
      have h2' : i < (runChecks rq w plan (checkCore rq w plan l t).2 ts).length := by
        rw [runChecks_length]
        exact h1'
      have hstep : (runChecks rq w plan l (t :: ts)).get ⟨i + 1, h2⟩ =
          (runChecks rq w plan (checkCore rq w plan l t).2 ts).get ⟨i, h2'⟩ := rfl
      rw [hstep, ih (checkCore rq w plan l t).2 i h1' h2']
      rfl

/-- C1 counterexample: the very first check for a fresh anonymous identity
(empty window log, time 0) inserts the timestamp — post-insert count 1 —
and returns `remaining = 10`, the full quota, whereas the claimed formula
`max(0, quota − post-insert count)` gives 9: the code computes `remaining`
from the count taken before the insert (`ZCARD` precedes `ZADD` in the
pipeline). -/
theorem c1_remaining_counterexample :
    (checkRateLimit "anonymous" (some []) 0).1.remaining = 10 ∧
      ((checkRateLimit "anonymous" (some []) 0).2.getD []).length = 1 ∧
      ¬ ((10 : ℕ) = max 0 (10 - 1)) := by
  exact ⟨rfl, rfl, by decide⟩

/-- C1 amended: one check is the single atomic evict/count/insert/expire
pipeline, and for a timestamp not already in the evicted log it admits
exactly when the post-insert count is at most the quota, but returns
`remaining = max(0, quota − pre-insert count)` — the count before the
current timestamp is inserted, one more than the claimed formula whenever
the quota is not yet exhausted.  The scenario parts of the claim hold: for
any strictly increasing sequence of checks of one identity all lying
within one window of each other, starting from an empty log, check `i` is
admitted exactly when `i < quota` with `remaining = quota − i` (so after
exactly `quota` admissions the next check in the window is denied with
`remaining = 0`), and once a full window passes with no intervening check,
the next check is admitted again. -/
theorem c1_rate_limit_amended :
    (∀ (plan : String) (l : List ℤ) (t : ℤ),
      t ∉ l.filter (fun x => decide (¬ (0 ≤ x ∧ x ≤ t - ((defaultLimits plan).2 : ℤ)))) →
      (checkRateLimit plan (some l) t).2 =
        some ((l.filter
          (fun x => decide (¬ (0 ≤ x ∧ x ≤ t - ((defaultLimits plan).2 : ℤ))))) ++ [t]) ∧
      ((checkRateLimit plan (some l) t).1.allowed = true ↔
        (l.filter
          (fun x => decide (¬ (0 ≤ x ∧ x ≤ t - ((defaultLimits plan).2 : ℤ))))).length + 1
          ≤ (defaultLimits plan).1) ∧
      (checkRateLimit plan (some l) t).1.remaining =
        (defaultLimits plan).1 - (l.filter
          (fun x => decide (¬ (0 ≤ x ∧ x ≤ t - ((defaultLimits plan).2 : ℤ))))).length) ∧
    (∀ (plan : String) (ts : List ℤ),
      ts.Chain' (· < ·) →
      (∀ x ∈ ts, ∀ y ∈ ts, y - x < ((defaultLimits plan).2 : ℤ)) →
      ∀ (i : ℕ) (h1 : i < ts.length)
        (h2 : i < (runChecks (defaultLimits plan).1 (defaultLimits plan).2 plan [] ts).length),
        ((runChecks (defaultLimits plan).1 (defaultLimits plan).2 plan [] ts).get
            ⟨i, h2⟩).allowed = decide (i < (defaultLimits plan).1) ∧
        ((runChecks (defaultLimits plan).1 (defaultLimits plan).2 plan [] ts).get
            ⟨i, h2⟩).current_count = i ∧
        ((runChecks (defaultLimits plan).1 (defaultLimits plan).2 plan [] ts).get
            ⟨i, h2⟩).remaining = (defaultLimits plan).1 - i) ∧
    (∀ (plan : String) (ts : List ℤ) (t' : ℤ),
      (∀ x ∈ ts, 0 ≤ x ∧ x ≤ t' - ((defaultLimits plan).2 : ℤ)) →
      (checkCore (defaultLimits plan).1 (defaultLimits plan).2 plan
          (stateAfter (defaultLimits plan).2 [] ts) t').1.allowed = true) := by
  refine ⟨?_, ?_, ?_⟩
  · intro plan l t hf
    refine ⟨?_, ?_, rfl⟩
    · show some (checkCore (defaultLimits plan).1 (defaultLimits plan).2 plan l t).2 = _
      unfold checkCore
      simp only
      rw [if_neg hf]
    · show decide ((l.filter
          (fun x => decide (¬ (0 ≤ x ∧ x ≤ t - ((defaultLimits plan).2 : ℤ))))).length
            < (defaultLimits plan).1) = true ↔ _
      simp only [decide_eq_true_eq]
      omega
  · intro plan ts hchain hwin i h1 h2
    have hpw : ts.Pairwise (· < ·) := List.chain'_iff_pairwise.mp hchain
    have hnd : ts.Nodup := hpw.imp fun h => ne_of_lt h
    have hstate : stateAfter (defaultLimits plan).2 [] (ts.take i) = ts.take i := by
      have := @stateAfter_within (defaultLimits plan).2 (ts.take i) []
        (by intro x hx; exact absurd hx (List.not_mem_nil x))
        (by
          intro x hx u hu
          intro hcon
          have hw := hwin x (List.take_subset i ts hx) u (List.take_subset i ts hu)
          omega)
        (by simpa using ((List.take_sublist i ts).nodup hnd))
      simpa using this
    rw [runChecks_get (defaultLimits plan).1 (defaultLimits plan).2 plan ts [] i h1 h2,
      hstate]
    have hfilter : ((ts.take i).filter
        (fun x => decide (¬ (0 ≤ x ∧ x ≤ ts.get ⟨i, h1⟩ - ((defaultLimits plan).2 : ℤ)))))
        = ts.take i := by
      apply List.filter_eq_self.mpr
      intro x hx
      apply decide_eq_true
      intro hcon
      have hw := hwin x (List.take_subset i ts hx) (ts.get ⟨i, h1⟩) (ts.get_mem i h1)
      omega
    have hlen : (ts.take i).length = i := by
      rw [List.length_take]
      exact Nat.min_eq_left (le_of_lt h1)
    refine ⟨?_, ?_, ?_⟩
    · show decide (((ts.take i).filter _).length < (defaultLimits plan).1) = _
      rw [hfilter, hlen]
    · show ((ts.take i).filter _).length = i
      rw [hfilter, hlen]
    · show (defaultLimits plan).1 - ((ts.take i).filter _).length = _
      rw [hfilter, hlen]
  · intro plan ts t' hev
    have hfilter : ((stateAfter (defaultLimits plan).2 [] ts).filter
        (fun x => decide (¬ (0 ≤ x ∧ x ≤ t' - ((defaultLimits plan).2 : ℤ))))) = [] := by
      apply List.filter_eq_nil_iff.mpr
      intro x hx
      rcases mem_stateAfter_src hx with hnil | hts
      · exact absurd hnil (List.not_mem_nil x)
      · simp only [decide_eq_true_eq, not_not]
        exact hev x hts
    show decide (((stateAfter (defaultLimits plan).2 [] ts).filter _).length
        < (defaultLimits plan).1) = true
    rw [hfilter]
    exact decide_eq_true (by simpa using (defaultLimits_pos plan).1)

/-- C9 counterexample: an anonymous caller checks at integer seconds 0..10
(the 11th check, at second 10, is denied over the 10-request quota) and
then checks once more at second 69.  Every gap between consecutive checks
is below the 60-second window — the caller never stops checking for a full
window — yet the check at second 69 is admitted, because only one of the
logged timestamps (second 10) still lies in its window.  Denied attempts
do occupy window slots, but sparse checking is re-admitted without a
full-window pause. -/
theorem c9_readmission_counterexample :
    ((runChecks 10 60 "anonymous" [] [0, 1, 2, 3, 4, 5, 6, 7, 8, 9, 10, 69]).get
        ⟨10, by decide⟩).allowed = false ∧
      ((runChecks 10 60 "anonymous" [] [0, 1, 2, 3, 4, 5, 6, 7, 8, 9, 10, 69]).get
        ⟨11, by decide⟩).allowed = true ∧
      List.Chain' (fun a b => b - a < (60 : ℤ)) [0, 1, 2, 3, 4, 5, 6, 7, 8, 9, 10, 69] := by
  refine ⟨by decide, by decide, ?_⟩
  simp only [List.chain'_cons, List.chain'_singleton, and_true]
  decide

/-- C9 amended: every check inserts the current timestamp into the window
log whether admitted or denied, so denied attempts occupy window slots
countable by later checks.  Consequently a caller that checks often enough
— any `quota + 1` consecutive check times spanning less than one window —
is denied on every check after its first `quota`, forever, until it slows
down.  Re-admission, however, does not require a full-window pause:
checking sparsely enough that fewer than `quota` of its timestamps remain
inside a window is re-admitted even though each gap stays below the window
(see the counterexample). -/
theorem c9_denied_inserts_amended :
    (∀ (rq w : ℕ) (plan : String) (l : List ℤ) (t : ℤ),
      t ∈ (checkCore rq w plan l t).2) ∧
    (∀ (plan : String) (ts : List ℤ),
      ts.Chain' (· < ·) →
      (∀ (i j : ℕ) (hi : i < ts.length) (hj : j < ts.length),
        j = i + (defaultLimits plan).1 →
        ts.get ⟨j, hj⟩ - ts.get ⟨i, hi⟩ < ((defaultLimits plan).2 : ℤ)) →
      ∀ (i : ℕ) (h1 : i < ts.length)
        (h2 : i < (runChecks (defaultLimits plan).1 (defaultLimits plan).2 plan [] ts).length),
        (defaultLimits plan).1 ≤ i →
        ((runChecks (defaultLimits plan).1 (defaultLimits plan).2 plan [] ts).get
            ⟨i, h2⟩).allowed = false) := by
  constructor
  · intro rq w plan l t
    rw [checkCore_snd_eq_rlStep]
    exact mem_rlStep_self w l t
  · intro plan ts hchain hfreq i h1 h2 hge
    have hpw : ts.Pairwise (· < ·) := List.chain'_iff_pairwise.mp hchain
    have hnd : ts.Nodup := hpw.imp fun h => ne_of_lt h
    have hmono : ∀ (m j : ℕ) (hm : m < ts.length) (hj : j < ts.length), m ≤ j →
        ts.get ⟨m, hm⟩ ≤ ts.get ⟨j, hj⟩ := by
      intro m j hm hj hmj
      rcases Nat.lt_or_ge m j with hlt | hgej
      · exact le_of_lt (List.pairwise_iff_getElem.mp hpw m j hm hj hlt)
      · have : m = j := le_antisymm hmj hgej
        subst this
        exact le_refl _
    rw [runChecks_get (defaultLimits plan).1 (defaultLimits plan).2 plan ts [] i h1 h2]
    have hbound : ∀ (j : ℕ) (hj : j < ts.length), i - (defaultLimits plan).1 ≤ j →
        ∀ (m : ℕ) (hm : m < ts.length), m ≤ i →
          ts.get ⟨m, hm⟩ - ts.get ⟨j, hj⟩ < ((defaultLimits plan).2 : ℤ) := by
      intro j hj hj1 m hm hmi
      have hiq : i - (defaultLimits plan).1 < ts.length := by omega
      have hfr := hfreq (i - (defaultLimits plan).1) i hiq h1 (by omega)
      have hm' := hmono m i hm h1 hmi
      have hj' := hmono (i - (defaultLimits plan).1) j hiq hj hj1
      omega
    have htakelen : (ts.take i).length = i := by
      rw [List.length_take]
      exact Nat.min_eq_left (le_of_lt h1)
    have hidx : ∀ x ∈ (ts.take i).drop (i - (defaultLimits plan).1),
        ∃ (j : ℕ) (hj : j < ts.length),
          i - (defaultLimits plan).1 ≤ j ∧ j < i ∧ x = ts.get ⟨j, hj⟩ := by
      intro x hx
      rcases List.mem_iff_get.mp hx with ⟨⟨k, hk⟩, hkx⟩
      have hk' : i - (defaultLimits plan).1 + k < i := by
        have := hk
        rw [List.length_drop, htakelen] at this
        omega
      refine ⟨i - (defaultLimits plan).1 + k, by omega, Nat.le_add_right _ _, hk', ?_⟩
      rw [← hkx]
      show ((ts.take i).drop (i - (defaultLimits plan).1)).get ⟨k, hk⟩ = _
      have e1 : ((ts.take i).drop (i - (defaultLimits plan).1)).get ⟨k, hk⟩ =
          (ts.take i).get ⟨i - (defaultLimits plan).1 + k, by rw [htakelen]; exact hk'⟩ := by
        simp [List.get_drop']
      have e2 : (ts.take i).get ⟨i - (defaultLimits plan).1 + k,
          by rw [htakelen]; exact hk'⟩ = ts.get ⟨i - (defaultLimits plan).1 + k, by omega⟩ := by
        simp [List.get_take]
      rw [e1, e2]
    have hDF : ∀ x ∈ (ts.take i).drop (i - (defaultLimits plan).1),
        x ∈ (stateAfter (defaultLimits plan).2 [] (ts.take i)).filter
          (fun y => decide (¬ (0 ≤ y ∧ y ≤ ts.get ⟨i, h1⟩ - ((defaultLimits plan).2 : ℤ)))) := by
      intro x hx
      rcases hidx x hx with ⟨j, hj, hj1, hj2, rfl⟩
      have hmemtake : ts.get ⟨j, hj⟩ ∈ ts.take i := by
        have : (ts.take i).get ⟨j, by rw [htakelen]; exact hj2⟩ = ts.get ⟨j, hj⟩ := by
          simp [List.get_take]
        rw [← this]
        exact List.get_mem _ _ _
      have hxS : ts.get ⟨j, hj⟩ ∈ stateAfter (defaultLimits plan).2 [] (ts.take i) := by
        apply mem_stateAfter_of_mem hmemtake
        intro u hu
        rcases List.mem_iff_get.mp hu with ⟨⟨m, hm⟩, hmu⟩
        have hm' : m < i := by
          have := hm
          rw [htakelen] at this
          exact this
        have humem : u = ts.get ⟨m, by omega⟩ := by
          rw [← hmu]
          simp [List.get_take]
        intro hcon
        have := hbound j hj hj1 m (by omega) (le_of_lt hm')
        rw [humem] at hcon
        omega
      refine List.mem_filter.mpr ⟨hxS, decide_eq_true ?_⟩
      intro hcon
      have := hbound j hj hj1 i h1 (le_refl i)
      omega
    have hsubperm : List.Subperm ((ts.take i).drop (i - (defaultLimits plan).1))
        ((stateAfter (defaultLimits plan).2 [] (ts.take i)).filter
          (fun y => decide (¬ (0 ≤ y ∧ y ≤ ts.get ⟨i, h1⟩ - ((defaultLimits plan).2 : ℤ))))) := by
      apply List.Nodup.subperm
      · exact (((List.drop_sublist _ _).trans (List.take_sublist _ _)).nodup hnd)
      · exact fun x hx => hDF x hx
    have hlenle := hsubperm.length_le
    have hDlen : ((ts.take i).drop (i - (defaultLimits plan).1)).length
        = (defaultLimits plan).1 := by
      rw [List.length_drop, htakelen]
      omega
    show decide (((stateAfter (defaultLimits plan).2 [] (ts.take i)).filter _).length
        < (defaultLimits plan).1) = false
    apply decide_eq_false
    rw [hDlen] at hlenle
    omega
